import Mathlib

/-!
Verification development for the football-data scraper (`data.py`).

The Python source is shallowly embedded:
* strings are Lean `String`s, but every string operation the source relies on
  (lexicographic comparison, `in`, `split('.')`, `str.lower`, `str.zfill`,
  regular-expression year search, `strptime('%b %d, %Y')`) is re-implemented
  by structural recursion over `List Char`, matching CPython's behaviour on
  the ASCII inputs the scraper handles;
* Python `None` becomes `Option.none`; Python truthiness of optional strings
  (`if not x`) is the `truthy` predicate (None and the empty string are falsy);
* `dict.get(k)` on the transfer-event dicts becomes an `Option`-valued field,
  `dict.get(k, default)` becomes `Option.getD`;
* the `TypeError` that CPython raises when `>` compares `None` with `str`
  is modelled by `Except.error`; `build_career_timeline` therefore returns
  `Except String (List ClubTenure)`;
* `safe_request`'s effects (disk cache, pacing sleep, the two fetch
  strategies) are modelled by explicit state passing: the on-disk cache is an
  association list, network outcomes are oracle parameters (`SelResult`,
  `HttpResult`), and every sleep / fetch attempt / cache write is recorded in
  an event log; `raise SystemExit` becomes `Except.error` with a
  distinguishable `FatalExit` value;
* the `scrape_transfermarkt_profiles` loop is embedded with its per-player
  body abstracted as a state transformer, since only the loop control
  (`enumerate(..., 1)` plus the `idx > 50` break) is at issue.
-/

namespace FootballData

/-! ## Character and string primitives (CPython semantics on ASCII data) -/

/-- Lexicographic `<` on character lists by code point, exactly Python's
string comparison: a proper prefix is smaller, otherwise the first differing
character decides. -/
def charsLt : List Char → List Char → Bool
  | [], [] => false
  | [], _ :: _ => true
  | _ :: _, [] => false
  | a :: as, b :: bs =>
    if a.toNat < b.toNat then true
    else if b.toNat < a.toNat then false
    else charsLt as bs

/-- Python `a < b` on strings. -/
def pyStrLt (a b : String) : Bool := charsLt a.data b.data

/-- Python `a <= b` on strings (equivalently, not `b < a`). -/
def pyStrLe (a b : String) : Bool := !(pyStrLt b a)

/-- Python `sep in s` for a single character: membership test. -/
def hasChar (s : String) (c : Char) : Bool := s.data.any (· == c)

/-- Python `s.split('.')`: split on every dot, keeping empty pieces. -/
def splitDot : List Char → List (List Char)
  | [] => [[]]
  | c :: cs =>
    if c = '.' then [] :: splitDot cs
    else
      match splitDot cs with
      | [] => [[c]]
      | g :: gs => (c :: g) :: gs

/-- ASCII lower-casing of one character (Python `str.lower` on ASCII). -/
def lowerChar (c : Char) : Char :=
  if 65 ≤ c.toNat ∧ c.toNat ≤ 90 then Char.ofNat (c.toNat + 32) else c

/-- Boolean prefix test on character lists. -/
def isPrefixChars : List Char → List Char → Bool
  | [], _ => true
  | _ :: _, [] => false
  | a :: as, b :: bs => a == b && isPrefixChars as bs

/-- Boolean substring test (Python `needle in hay`). -/
def isSubChars (needle : List Char) : List Char → Bool
  | [] => isPrefixChars needle []
  | c :: cs => isPrefixChars needle (c :: cs) || isSubChars needle cs

/-- ASCII digit test (regex `\d` on the scraper's ASCII data). -/
def isDig (c : Char) : Bool := 48 ≤ c.toNat && c.toNat ≤ 57

/-- Regex word character `\w` (ASCII): letter, digit or underscore. -/
def wordChar (c : Char) : Bool :=
  isDig c || (65 ≤ c.toNat && c.toNat ≤ 90) || (97 ≤ c.toNat && c.toNat ≤ 122) || c == '_'

/-- Python whitespace class `\s` (ASCII). -/
def pyWs (c : Char) : Bool :=
  c == ' ' || c == '\t' || c == '\n' || c == '\r' || c.toNat == 11 || c.toNat == 12

/-- Numeric value of an ASCII digit. -/
def digitVal (c : Char) : Nat := c.toNat - 48

/-- Decimal rendering of a natural number padded to width 2
(`strftime('%m')` / `strftime('%d')`). -/
def pad2 (n : Nat) : String := if n < 10 then "0" ++ toString n else toString n

/-- Decimal rendering of a natural number padded to width 4 (`strftime('%Y')`). -/
def pad4 (n : Nat) : String :=
  if n < 10 then "000" ++ toString n
  else if n < 100 then "00" ++ toString n
  else if n < 1000 then "0" ++ toString n
  else toString n

/-- Python `s.zfill(2)`: left-pad with zeros to width 2, keeping a leading
sign in front of the padding. -/
def zfill2 (cs : List Char) : List Char :=
  match cs with
  | [] => ['0', '0']
  | [c] => if c = '+' || c = '-' then [c, '0'] else ['0', c]
  | _ => cs

/-! ## `parse_transfer_date` (source lines 381-408)

`datetime.strptime(s, '%b %d, %Y')` is modelled faithfully: case-insensitive
three-letter month abbreviation, at least one whitespace character, a 1-2
digit day (regex alternation `3[01]|[12]\d|0[1-9]|[1-9]`, with the engine's
backtracking order), a literal comma, at least one whitespace character, a
4-digit year, end of input; then the `datetime` constructor's calendar
validation.  A failed parse raises `ValueError`, which the source catches and
ignores, so it is modelled as `none`. -/

/-- Lowercase month abbreviations with month numbers (C locale `%b`). -/
def monthAbbrevs : List (List Char × Nat) :=
  [("jan".data, 1), ("feb".data, 2), ("mar".data, 3), ("apr".data, 4),
   ("may".data, 5), ("jun".data, 6), ("jul".data, 7), ("aug".data, 8),
   ("sep".data, 9), ("oct".data, 10), ("nov".data, 11), ("dec".data, 12)]

/-- Candidate parses of regex `%d` = `3[01]|[12]\d|0[1-9]|[1-9]` at the head
of the input, in the engine's alternation order (day value, rest of input). -/
def dayAlts (cs : List Char) : List (Nat × List Char) :=
  (match cs with
   | c1 :: c2 :: rest =>
     (if c1 == '3' && (c2 == '0' || c2 == '1') then [(30 + digitVal c2, rest)] else []) ++
     (if (c1 == '1' || c1 == '2') && isDig c2 then [(10 * digitVal c1 + digitVal c2, rest)] else []) ++
     (if c1 == '0' && isDig c2 && c2 != '0' then [(digitVal c2, rest)] else [])
   | _ => []) ++
  (match cs with
   | c1 :: rest => if isDig c1 && c1 != '0' then [(digitVal c1, rest)] else []
   | _ => [])

/-- After the day: a literal comma, one or more whitespace characters, a
4-digit year (`%Y`), and nothing else (strptime rejects leftover input). -/
def yearTail (cs : List Char) : Option Nat :=
  match cs with
  | ',' :: rest =>
    if (rest.takeWhile pyWs).length ≥ 1 then
      match rest.dropWhile pyWs with
      | [a, b, c, d] =>
        if isDig a && isDig b && isDig c && isDig d then
          some (1000 * digitVal a + 100 * digitVal b + 10 * digitVal c + digitVal d)
        else none
      | _ => none
    else none
  | _ => none

/-- Gregorian leap-year rule used by `datetime`. -/
def isLeapYear (y : Nat) : Bool := y % 4 == 0 && (y % 100 != 0 || y % 400 == 0)

/-- Days in a month, as validated by the `datetime` constructor. -/
def daysInMonth (y m : Nat) : Nat :=
  if m == 2 then (if isLeapYear y then 29 else 28)
  else if m == 4 || m == 6 || m == 9 || m == 11 then 30
  else 31

/-- `datetime(y, m, d)` constructor validation (month is 1-12 by
construction here). -/
def validDate (y m d : Nat) : Bool :=
  decide (1 ≤ y) && decide (1 ≤ d) && decide (d ≤ daysInMonth y m)

/-- `datetime.strptime(s, '%b %d, %Y')`, returning `(year, month, day)`;
`none` models the `ValueError` the source catches. -/
def strptimeMonthDayYear (s : String) : Option (Nat × Nat × Nat) :=
  let cs := s.data.map lowerChar
  match monthAbbrevs.findSome? (fun p =>
      if isPrefixChars p.1 cs then some (p.2, cs.drop 3) else none) with
  | none => none
  | some (m, rest1) =>
    if (rest1.takeWhile pyWs).length ≥ 1 then
      match (dayAlts (rest1.dropWhile pyWs)).findSome? (fun q =>
          (yearTail q.2).map (fun y => (y, q.1))) with
      | some (y, d) => if validDate y m d then some (y, m, d) else none
      | none => none
    else none

/-- Is position `i` of `cs` a regex word boundary (`\b`)?  A boundary sits
between positions `i-1` and `i`, where outside the string counts as
non-word. -/
def wordAt (cs : List Char) (i : Nat) : Bool :=
  match cs.get? i with
  | some c => wordChar c
  | none => false

/-- Word-boundary test `\b` before position `i`. -/
def boundaryAt (cs : List Char) : Nat → Bool
  | 0 => wordAt cs 0
  | j + 1 => wordAt cs j != wordAt cs (j + 1)

/-- Match of regex `\b(19|20)\d{2}\b` starting at position `i`. -/
def yearAtPos (cs : List Char) (i : Nat) : Option String :=
  match cs.get? i, cs.get? (i + 1), cs.get? (i + 2), cs.get? (i + 3) with
  | some a, some b, some c, some d =>
    if boundaryAt cs i && ((a == '1' && b == '9') || (a == '2' && b == '0'))
        && isDig c && isDig d && boundaryAt cs (i + 4) then
      some (String.mk [a, b, c, d])
    else none
  | _, _, _, _ => none

/-- `re.search(r'\b(19|20)\d{2}\b', s)`: leftmost match. -/
def yearSearch (s : String) : Option String :=
  (List.range s.data.length).findSome? (fun i => yearAtPos s.data i)

/-- Embedding of `parse_transfer_date` (source lines 381-408).  Empty or
`"-"` input yields `None`; a comma selects the `'%b %d, %Y'` strptime format
(failure falls through); otherwise a dot selects the `d.m.y` split (only when
it yields exactly three parts, with no validation at all); finally a bare
4-digit year token defaults to July 1 of that year; else `None`. -/
def parse_transfer_date (date_str : String) : Option String :=
  if date_str = "" ∨ date_str = "-" then none
  else
    let attempt : Option String :=
      if hasChar date_str ',' then
        match strptimeMonthDayYear date_str with
        | some (y, m, d) => some (pad4 y ++ "-" ++ pad2 m ++ "-" ++ pad2 d)
        | none => none
      else if hasChar date_str '.' then
        let parts := splitDot date_str.data
        if parts.length = 3 then
          some (String.mk ((parts.getD 2 []) ++ '-' :: zfill2 (parts.getD 1 []) ++
            '-' :: zfill2 (parts.getD 0 [])))
        else none
      else none
    match attempt with
    | some d => some d
    | none =>
      match yearSearch date_str with
      | some y => some (y ++ "-07-01")
      | none => none

/-! ## `build_career_timeline` (source lines 411-472) -/

/-- One transfer-event dict as consumed by `build_career_timeline`.  A field
is `none` when the key is absent or was set to Python `None`; fields of the
dict that the function never reads (raw date text, market value) are
omitted. -/
structure TransferEvent where
  season : Option String
  date_parsed : Option String
  from_club : Option String
  to_club : Option String
  transfer_fee : Option String
deriving DecidableEq

/-- One career record produced by `build_career_timeline`.  `end_date` is
`none` when the Python dict holds `None`; the sentinel is the string
`"present"`. -/
structure ClubTenure where
  club : String
  start_date : String
  end_date : Option String
  seasons : List String
  transfer_fee : String
deriving DecidableEq

/-- Python truthiness of an optional string: `None` and `""` are falsy. -/
def truthy : Option String → Bool
  | none => false
  | some s => s != ""

/-- `[transfer.get('season')] if transfer.get('season') else []`, and the
conditional `append` in the merge branch. -/
def seasonList : Option String → List String
  | some s => if s = "" then [] else [s]
  | none => []

/-- Sort key `x.get('date_parsed') or '1900-01-01'` (note `or` substitutes
the default for `None` and for the empty string alike). -/
def sortKey (e : TransferEvent) : String :=
  match e.date_parsed with
  | some d => if d = "" then "1900-01-01" else d
  | none => "1900-01-01"

/-- Stable insertion of one event into an already sorted list: the new event
goes before the first element it is not strictly after, which is exactly
where Python's stable `sorted` keeps it. -/
def insertSorted (e : TransferEvent) : List TransferEvent → List TransferEvent
  | [] => [e]
  | x :: xs =>
    if pyStrLe (sortKey e) (sortKey x) then e :: x :: xs
    else x :: insertSorted e xs

/-- `sorted(transfer_history, key=...)`: stable ascending sort by `sortKey`. -/
def sortTransfers : List TransferEvent → List TransferEvent
  | [] => []
  | e :: rest => insertSorted e (sortTransfers rest)

/-- End-date resolution for the event opening a tenure for `to_club`, given
`rest` = the events after it in the sorted sequence (source lines 431-445).
If `rest` is empty the event is the last one and the tenure is open
(`"present"`).  Otherwise scan `rest` for the first event whose `from_club`
equals `to_club` and take its parsed date; if that left nothing truthy
(no such event, or its date was `None`/empty), fall back to the parsed date
of the immediately next event when that is truthy; otherwise keep the
scanned value. -/
def endDateFor (to_club : String) (rest : List TransferEvent) : Option String :=
  match rest with
  | [] => some "present"
  | next :: _ =>
    let scanned :=
      match rest.find? (fun nt => nt.from_club == some to_club) with
      | some nt => nt.date_parsed
      | none => none
    if truthy scanned then scanned
    else if truthy next.date_parsed then next.date_parsed
    else scanned

/-- The merge guard `end_date == 'present' or (existing['end_date'] !=
'present' and end_date > existing['end_date'])` with Python's short-circuit
evaluation; comparing `None` with a string via `>` raises `TypeError`. -/
def mergeCondition (end_date cur : Option String) : Except String Bool :=
  if end_date = some "present" then .ok true
  else if cur = some "present" then .ok false
  else
    match end_date, cur with
    | some e, some c => .ok (pyStrLt c e)
    | _, _ => .error "TypeError: '>' not supported between instances of 'NoneType' and 'str'"

/-- In-place mutation of the first career record for `club` (the record the
linear search in source lines 449-452 finds). -/
def updateFirstClub (club : String) (f : ClubTenure → ClubTenure) :
    List ClubTenure → List ClubTenure
  | [] => []
  | r :: rs => if r.club = club then f r :: rs else r :: updateFirstClub club f rs

/-- One iteration of the `for i, transfer in enumerate(sorted_transfers)`
loop body (source lines 424-470), where `rest` is the tail of the sorted
list after the current event. -/
def stepEvent (t : TransferEvent) (rest : List TransferEvent)
    (career : List ClubTenure) : Except String (List ClubTenure) :=
  match t.to_club, t.date_parsed with
  | some to_club, some start_date =>
    if to_club = "" ∨ start_date = "" then .ok career
    else
      let end_date := endDateFor to_club rest
      match career.find? (fun r => r.club == to_club) with
      | some existing =>
        match mergeCondition end_date existing.end_date with
        | .error msg => .error msg
        | .ok true =>
          .ok (updateFirstClub to_club
            (fun r => { r with end_date := end_date,
                               seasons := r.seasons ++ seasonList t.season }) career)
        | .ok false => .ok career
      | none =>
        .ok (career ++ [{ club := to_club, start_date := start_date,
                          end_date := end_date,
                          seasons := seasonList t.season,
                          transfer_fee := t.transfer_fee.getD "Unknown" }])
  | _, _ => .ok career

/-- The whole loop over the sorted events. -/
def buildLoop : List TransferEvent → List ClubTenure → Except String (List ClubTenure)
  | [], career => .ok career
  | t :: rest, career =>
    match stepEvent t rest career with
    | .error msg => .error msg
    | .ok career' => buildLoop rest career'

/-- Embedding of `build_career_timeline` (source lines 411-472). -/
def build_career_timeline (transfer_history : List TransferEvent) :
    Except String (List ClubTenure) :=
  if transfer_history.isEmpty then .ok []
  else buildLoop (sortTransfers transfer_history) []

/-! ## `safe_request` (source lines 54-114) -/

/-- Observable effects of one `safe_request` call, in order. -/
inductive FetchEvent where
  | sleep : FetchEvent
  | seleniumFetch (url : String) : FetchEvent
  | httpFetch (url : String) : FetchEvent
  | cacheStore (path : String) : FetchEvent
deriving DecidableEq

/-- The two distinguishable `SystemExit` diagnostics. -/
inductive FatalExit where
  | blocked : FatalExit
  | rateLimited : FatalExit
deriving DecidableEq

/-- Oracle outcome of `fetch_with_selenium`: an exception, or a page source
(the empty string is falsy and is treated as no result). -/
inductive SelResult where
  | err : SelResult
  | ok (html : String) : SelResult
deriving DecidableEq

/-- Oracle outcome of the `requests` call: a successful body, an HTTP error
status (from `raise_for_status`), or any other exception (timeout,
connection failure, ...). -/
inductive HttpResult where
  | ok (text : String) : HttpResult
  | httpError (status : Nat) : HttpResult
  | otherError : HttpResult
deriving DecidableEq

/-- The module-level configuration `USE_SELENIUM`. -/
structure FetchConfig where
  useSelenium : Bool
deriving DecidableEq

/-- World state threaded through `safe_request`: the on-disk cache
(`cache_path` to file body) and the log of observable effects. -/
structure FetchState where
  cache : List (String × String)
  events : List FetchEvent
deriving DecidableEq

/-- `os.path.exists(cache_path)` plus reading the file. -/
def cacheLookup (path : String) (cache : List (String × String)) : Option String :=
  (cache.find? (fun kv => kv.1 == path)).map (·.2)

/-- Append one observable effect to the log. -/
def logEvent (st : FetchState) (e : FetchEvent) : FetchState :=
  { st with events := st.events ++ [e] }

/-- Python `'fbref.com' in url`. -/
def containsFbref (url : String) : Bool := isSubChars "fbref.com".data url.data

/-- The `requests` block of `safe_request` (source lines 80-114): one fetch
attempt; on success write the cache and return the body; an HTTP error with
status 403 or 429 raises the fatal `SystemExit`; every other failure returns
`None`. -/
def directHttpStep (url cache_path : String) (http : HttpResult) (st : FetchState) :
    Except FatalExit (Option String) × FetchState :=
  let st1 := logEvent st (.httpFetch url)
  match http with
  | .ok text =>
    (.ok (some text),
     { cache := (cache_path, text) :: st1.cache,
       events := st1.events ++ [.cacheStore cache_path] })
  | .httpError status =>
    if status = 403 then (.error .blocked, st1)
    else if status = 429 then (.error .rateLimited, st1)
    else (.ok none, st1)
  | .otherError => (.ok none, st1)

/-- The part of `safe_request` below the cache check (source lines 61-114):
sleep for the pacing delay, try Selenium when it is available and the URL is
on fbref.com (a raised exception or a falsy page falls through), then fall
back to the direct `requests` strategy. -/
def fetchRemote (cfg : FetchConfig) (st : FetchState) (url cache_path : String)
    (sel : SelResult) (http : HttpResult) :
    Except FatalExit (Option String) × FetchState :=
  let st1 := logEvent st .sleep
  if cfg.useSelenium && containsFbref url then
    let st2 := logEvent st1 (.seleniumFetch url)
    match sel with
    | .ok html =>
      if html ≠ "" then
        (.ok (some html),
         { cache := (cache_path, html) :: st2.cache,
           events := st2.events ++ [.cacheStore cache_path] })
      else directHttpStep url cache_path http st2
    | .err => directHttpStep url cache_path http st2
  else directHttpStep url cache_path http st1

/-- Embedding of `safe_request` (source lines 54-114).  A cache hit with no
force-refresh returns the cached body untouched (no sleep, no fetch, no
cache write); otherwise the call proceeds to `fetchRemote`. -/
def safe_request (cfg : FetchConfig) (st : FetchState) (url cache_path : String)
    (force_refresh : Bool) (sel : SelResult) (http : HttpResult) :
    Except FatalExit (Option String) × FetchState :=
  match cacheLookup cache_path st.cache, force_refresh with
  | some body, false => (.ok (some body), st)
  | _, _ => fetchRemote cfg st url cache_path sel http

/-- Is an event a network fetch attempt? -/
def isNetFetch : FetchEvent → Bool
  | .seleniumFetch _ => true
  | .httpFetch _ => true
  | _ => false

/-- Number of network fetch attempts in an effect log. -/
def netFetchCount (events : List FetchEvent) : Nat := events.countP isNetFetch

/-! ## `scrape_transfermarkt_profiles` loop control (source lines 533-542)

Only the loop over `enumerate(player_names, 1)` with the `idx > 50` break is
embedded; the per-player body (search fetch, parse, profile fetch, record
accumulation) is abstracted as a state transformer `body idx name`. -/

/-- The `for idx, name in enumerate(player_names, 1)` loop with the
`if idx > 50: break` guard at the top of the body. -/
def scrapeGo {σ : Type} (body : Nat → String → σ → σ) : Nat → List String → σ → σ
  | _, [], s => s
  | idx, n :: rest, s =>
    if idx > 50 then s else scrapeGo body (idx + 1) rest (body idx n s)

/-- Embedding of `scrape_transfermarkt_profiles` (loop control only). -/
def scrape_transfermarkt_profiles {σ : Type} (body : Nat → String → σ → σ)
    (player_names : List String) (s : σ) : σ :=
  scrapeGo body 1 player_names s

/-- Reference processing with no limit: run the body on every listed name in
order, numbering from `idx`. -/
def foldIdx {σ : Type} (body : Nat → String → σ → σ) : Nat → List String → σ → σ
  | _, [], s => s
  | idx, n :: rest, s => foldIdx body (idx + 1) rest (body idx n s)

/-! ## Claim-side definitions -/

/-- Written from the amended C1 wording: the end date of a tenure opened
with `rest` still ahead is the parsed date of the first subsequent event
whose source club matches, when that date is non-null and non-empty;
otherwise (no such event, or its date missing) it defaults to the parsed
date of the very next event when that is non-null and non-empty, and
otherwise remains the scanned value; the last event opens with
`"present"`. -/
def amendedEndDateFor (to_club : String) (rest : List TransferEvent) : Option String :=
  match rest with
  | [] => some "present"
  | next :: _ =>
    match rest.find? (fun nt => nt.from_club == some to_club) with
    | some nt =>
      match nt.date_parsed with
      | some d =>
        if d ≠ "" then some d
        else if truthy next.date_parsed then next.date_parsed else some d
      | none => if truthy next.date_parsed then next.date_parsed else none
    | none => if truthy next.date_parsed then next.date_parsed else none

/-- Shape of an ISO calendar date `YYYY-MM-DD` (all digits, dashes in
place). -/
def isISODate (s : String) : Bool :=
  match s.data with
  | [y1, y2, y3, y4, h1, m1, m2, h2, d1, d2] =>
    isDig y1 && isDig y2 && isDig y3 && isDig y4 && h1 == '-' &&
    isDig m1 && isDig m2 && h2 == '-' && isDig d1 && isDig d2
  | _ => false

/-- Does the event carry a non-null ISO-shaped parsed date? -/
def ISOdatedB (e : TransferEvent) : Bool :=
  match e.date_parsed with
  | some d => isISODate d
  | none => false

/-- The C6 record invariant: the start date is an ISO date and the end date
is either the sentinel `"present"` or an ISO date not before the start
date. -/
def tenureOKb (r : ClubTenure) : Bool :=
  isISODate r.start_date &&
  (match r.end_date with
   | some d => (d == "present") || (isISODate d && pyStrLe r.start_date d)
   | none => false)

/-- Is the tenure open (`end = "present"`)? -/
def isPresentRec (r : ClubTenure) : Bool := r.end_date == some "present"

/-- Number of open tenures in a career. -/
def presentCount (career : List ClubTenure) : Nat := career.countP isPresentRec

end FootballData

namespace FootballData

/-! ## Order lemmas for the embedded string comparison -/

theorem charsLt_nil_cons (c : Char) (cs : List Char) : charsLt [] (c :: cs) = true := rfl

theorem charsLt_cons_nil (c : Char) (cs : List Char) : charsLt (c :: cs) [] = false := rfl

theorem charsLt_nil_nil : charsLt [] [] = false := rfl

theorem charsLt_trans (a : List Char) :
    ∀ b c, charsLt a b = true → charsLt b c = true → charsLt a c = true := by
  induction a with
  | nil =>
    intro b c hab hbc
    cases b with
    | nil => simp [charsLt] at hab
    | cons y ys =>
      cases c with
      | nil => simp [charsLt] at hbc
      | cons z zs => rfl
  | cons x xs ih =>
    intro b c hab hbc
    cases b with
    | nil => simp [charsLt] at hab
    | cons y ys =>
      cases c with
      | nil => simp [charsLt] at hbc
      | cons z zs =>
        simp only [charsLt] at hab hbc ⊢
        by_cases h1 : x.toNat < y.toNat
        · simp only [h1, if_true] at hab
          by_cases h2 : y.toNat < z.toNat
          · have : x.toNat < z.toNat := by omega
            simp [this]
          · simp only [h2, if_false] at hbc
            by_cases h3 : z.toNat < y.toNat
            · simp [h3] at hbc
            · have : x.toNat < z.toNat := by omega
              simp [this]
        · simp only [h1, if_false] at hab
          by_cases h1' : y.toNat < x.toNat
          · simp [h1'] at hab
          · simp only [h1', if_false] at hab
            by_cases h2 : y.toNat < z.toNat
            · have : x.toNat < z.toNat := by omega
              simp [this]
            · simp only [h2, if_false] at hbc
              by_cases h3 : z.toNat < y.toNat
              · simp [h3] at hbc
              · simp only [h3, if_false] at hbc
                have hx : ¬ x.toNat < z.toNat := by omega
                have hz : ¬ z.toNat < x.toNat := by omega
                simp only [hx, hz, if_false]
                exact ih ys zs hab hbc

theorem charsLt_asymm (a : List Char) :
    ∀ b, charsLt a b = true → charsLt b a = false := by
  induction a with
  | nil =>
    intro b hab
    cases b with
    | nil => simp [charsLt] at hab
    | cons y ys => rfl
  | cons x xs ih =>
    intro b hab
    cases b with
    | nil => simp [charsLt] at hab
    | cons y ys =>
      simp only [charsLt] at hab ⊢
      by_cases h1 : x.toNat < y.toNat
      · have h2 : ¬ y.toNat < x.toNat := by omega
        simp [h1, h2]
      · simp only [h1, if_false] at hab
        by_cases h1' : y.toNat < x.toNat
        · simp [h1'] at hab
        · simp only [h1', if_false] at hab ⊢
          simp only [h1, if_false]
          exact ih ys hab

theorem charsLt_lt_of_lt_of_nlt (a : List Char) :
    ∀ b c, charsLt a b = true → charsLt c b = false → charsLt a c = true := by
  induction a with
  | nil =>
    intro b c hab hcb
    cases b with
    | nil => simp [charsLt] at hab
    | cons y ys =>
      cases c with
      | nil => simp [charsLt] at hcb
      | cons z zs => rfl
  | cons x xs ih =>
    intro b c hab hcb
    cases b with
    | nil => simp [charsLt] at hab
    | cons y ys =>
      cases c with
      | nil => simp [charsLt] at hcb
      | cons z zs =>
        simp only [charsLt] at hab hcb ⊢
        by_cases h1 : z.toNat < y.toNat
        · simp [h1] at hcb
        · simp only [h1, if_false] at hcb
          by_cases h2 : x.toNat < y.toNat
          · by_cases h3 : y.toNat < z.toNat
            · have : x.toNat < z.toNat := by omega
              simp [this]
            · -- y.toNat = z.toNat
              have : x.toNat < z.toNat := by omega
              simp [this]
          · simp only [h2, if_false] at hab
            by_cases h2' : y.toNat < x.toNat
            · simp [h2'] at hab
            · simp only [h2', if_false] at hab
              by_cases h3 : y.toNat < z.toNat
              · have : x.toNat < z.toNat := by omega
                simp [this]
              · -- all heads equal in code point
                simp only [h3, if_false] at hcb
                have hx : ¬ x.toNat < z.toNat := by omega
                have hz : ¬ z.toNat < x.toNat := by omega
                simp only [hx, hz, if_false]
                exact ih ys zs hab hcb

theorem pyStrLe_total (a b : String) (h : pyStrLe a b = false) : pyStrLe b a = true := by
  simp only [pyStrLe, Bool.not_eq_false'] at h
  simp only [pyStrLe, Bool.not_eq_true']
  exact charsLt_asymm _ _ h

theorem pyStrLe_trans (a b c : String) (hab : pyStrLe a b = true) (hbc : pyStrLe b c = true) :
    pyStrLe a c = true := by
  simp only [pyStrLe, pyStrLt, Bool.not_eq_true'] at hab hbc ⊢
  by_cases h : charsLt c.data a.data = true
  · have hcb := charsLt_lt_of_lt_of_nlt c.data a.data b.data h hab
    simp [hbc] at hcb
  · simpa using h

theorem pyStrLe_of_le_of_lt (a b c : String) (hab : pyStrLe a b = true)
    (hbc : pyStrLt b c = true) : pyStrLe a c = true := by
  simp only [pyStrLe, pyStrLt, Bool.not_eq_true'] at hab ⊢
  simp only [pyStrLt] at hbc
  by_cases h : charsLt c.data a.data = true
  · have hba := charsLt_trans b.data c.data a.data hbc h
    simp [hba] at hab
  · simpa using h

/-! ## Sorting lemmas -/

theorem mem_insertSorted {a e : TransferEvent} {l : List TransferEvent} :
    a ∈ insertSorted e l ↔ a = e ∨ a ∈ l := by
  induction l with
  | nil => simp [insertSorted]
  | cons x xs ih =>
    simp only [insertSorted]
    split
    · simp [or_comm, or_assoc, List.mem_cons]
    · simp only [List.mem_cons, ih]
      tauto

theorem mem_sortTransfers {a : TransferEvent} {l : List TransferEvent} :
    a ∈ sortTransfers l ↔ a ∈ l := by
  induction l with
  | nil => simp [sortTransfers]
  | cons e rest ih => simp [sortTransfers, mem_insertSorted, ih]

theorem pairwise_insertSorted {e : TransferEvent} {l : List TransferEvent}
    (h : l.Pairwise (fun a b => pyStrLe (sortKey a) (sortKey b) = true)) :
    (insertSorted e l).Pairwise (fun a b => pyStrLe (sortKey a) (sortKey b) = true) := by
  induction l with
  | nil => simp [insertSorted]
  | cons x xs ih =>
    rw [List.pairwise_cons] at h
    obtain ⟨hx, hxs⟩ := h
    simp only [insertSorted]
    split
    · rename_i hle
      refine List.Pairwise.cons ?_ (List.Pairwise.cons hx hxs)
      intro b hb
      rcases List.mem_cons.mp hb with rfl | hb
      · exact hle
      · exact pyStrLe_trans _ _ _ hle (hx b hb)
    · rename_i hnle
      refine List.Pairwise.cons ?_ (ih hxs)
      intro b hb
      rcases mem_insertSorted.mp hb with rfl | hb
      · exact pyStrLe_total _ _ (by simpa using hnle)
      · exact hx b hb

theorem pairwise_sortTransfers (l : List TransferEvent) :
    (sortTransfers l).Pairwise (fun a b => pyStrLe (sortKey a) (sortKey b) = true) := by
  induction l with
  | nil => simp [sortTransfers]
  | cons e rest ih => exact pairwise_insertSorted ih

/-! ## C9: the 50-player limit -/

theorem scrapeGo_eq_foldIdx_take {σ : Type} (body : Nat → String → σ → σ) :
    ∀ (l : List String) (idx : Nat) (s : σ),
      scrapeGo body idx l s = foldIdx body idx (l.take (51 - idx)) s := by
  intro l
  induction l with
  | nil => intro idx s; simp [scrapeGo, foldIdx]
  | cons n rest ih =>
    intro idx s
    by_cases h : idx > 50
    · have h51 : 51 - idx = 0 := by omega
      simp [scrapeGo, h, h51, foldIdx]
    · have h51 : 51 - idx = (50 - idx) + 1 := by omega
      have h50 : 51 - (idx + 1) = 50 - idx := by omega
      simp only [scrapeGo, h, if_false, h51, List.take_succ_cons, foldIdx]
      rw [ih (idx + 1), h50]

/-- Claim C9: `scrape_transfermarkt_profiles` processes at most the first 50
player names: the run over any name list equals the unlimited run over
`names.take 50`, so iteration stops before the 51st name and names beyond
the 50th trigger no per-player processing (hence no fetch) and contribute no
record. -/
theorem C9_player_limit {σ : Type} (body : Nat → String → σ → σ)
    (player_names : List String) (s : σ) :
    scrape_transfermarkt_profiles body player_names s =
      foldIdx body 1 (player_names.take 50) s := by
  have := scrapeGo_eq_foldIdx_take body player_names 1 s
  simpa [scrape_transfermarkt_profiles] using this

end FootballData

namespace FootballData

/-! ## `safe_request` lemmas -/

theorem cacheLookup_cons_self (p v : String) (c : List (String × String)) :
    cacheLookup p ((p, v) :: c) = some v := by
  simp [cacheLookup]

theorem safe_request_hit {cfg : FetchConfig} {st : FetchState} {url path body : String}
    {sel : SelResult} {http : HttpResult} (h : cacheLookup path st.cache = some body) :
    safe_request cfg st url path false sel http = (.ok (some body), st) := by
  unfold safe_request
  rw [h]

theorem safe_request_miss {cfg : FetchConfig} {st : FetchState} {url path : String}
    {force : Bool} {sel : SelResult} {http : HttpResult}
    (h : cacheLookup path st.cache = none) :
    safe_request cfg st url path force sel http = fetchRemote cfg st url path sel http := by
  unfold safe_request
  rw [h]

theorem safe_request_force {cfg : FetchConfig} {st : FetchState} {url path : String}
    {sel : SelResult} {http : HttpResult} :
    safe_request cfg st url path true sel http = fetchRemote cfg st url path sel http := by
  unfold safe_request
  cases cacheLookup path st.cache <;> rfl

theorem directHttpStep_ok_eq (url path text : String) (st : FetchState) :
    directHttpStep url path (.ok text) st =
      (.ok (some text),
       ⟨(path, text) :: st.cache,
        st.events ++ [.httpFetch url, .cacheStore path]⟩) := by
  simp [directHttpStep, logEvent]

theorem directHttpStep_httpError_eq (url path : String) (s : Nat) (st : FetchState) :
    directHttpStep url path (.httpError s) st =
      (if s = 403 then (.error .blocked, logEvent st (.httpFetch url))
       else if s = 429 then (.error .rateLimited, logEvent st (.httpFetch url))
       else (.ok none, logEvent st (.httpFetch url))) := rfl

theorem directHttpStep_otherError_eq (url path : String) (st : FetchState) :
    directHttpStep url path .otherError st = (.ok none, logEvent st (.httpFetch url)) := rfl

theorem fetchRemote_sel_off (cfg : FetchConfig) (st : FetchState) (url path : String)
    (sel : SelResult) (http : HttpResult)
    (hc : (cfg.useSelenium && containsFbref url) = false) :
    fetchRemote cfg st url path sel http =
      directHttpStep url path http (logEvent st .sleep) := by
  unfold fetchRemote
  rw [hc]
  rfl

theorem fetchRemote_sel_err (cfg : FetchConfig) (st : FetchState) (url path : String)
    (http : HttpResult) (hc : (cfg.useSelenium && containsFbref url) = true) :
    fetchRemote cfg st url path .err http =
      directHttpStep url path http (logEvent (logEvent st .sleep) (.seleniumFetch url)) := by
  unfold fetchRemote
  rw [hc]
  rfl

theorem fetchRemote_sel_empty (cfg : FetchConfig) (st : FetchState) (url path : String)
    (http : HttpResult) (hc : (cfg.useSelenium && containsFbref url) = true) :
    fetchRemote cfg st url path (.ok "") http =
      directHttpStep url path http (logEvent (logEvent st .sleep) (.seleniumFetch url)) := by
  unfold fetchRemote
  rw [hc]
  rfl

theorem fetchRemote_sel_ok (cfg : FetchConfig) (st : FetchState) (url path html : String)
    (http : HttpResult) (hc : (cfg.useSelenium && containsFbref url) = true)
    (hh : html ≠ "") :
    fetchRemote cfg st url path (.ok html) http =
      (.ok (some html),
       ⟨(path, html) :: st.cache,
        st.events ++ [.sleep, .seleniumFetch url, .cacheStore path]⟩) := by
  unfold fetchRemote
  rw [hc]
  simp [hh, logEvent]

theorem directHttpStep_mem_httpFetch (url path : String) (http : HttpResult)
    (st : FetchState) :
    FetchEvent.httpFetch url ∈ (directHttpStep url path http st).2.events := by
  cases http with
  | ok text => rw [directHttpStep_ok_eq]; simp
  | httpError s =>
    rw [directHttpStep_httpError_eq]
    split_ifs <;> simp [logEvent]
  | otherError => rw [directHttpStep_otherError_eq]; simp [logEvent]

theorem directHttpStep_error_char (url path : String) (http : HttpResult)
    (st : FetchState) (e : FatalExit)
    (h : (directHttpStep url path http st).1 = .error e) :
    (http = .httpError 403 ∧ e = .blocked) ∨ (http = .httpError 429 ∧ e = .rateLimited) := by
  cases http with
  | ok text => rw [directHttpStep_ok_eq] at h; simp at h
  | httpError s =>
    rw [directHttpStep_httpError_eq] at h
    split_ifs at h with h1 h2
    · simp only [Except.error.injEq] at h
      exact Or.inl ⟨by rw [h1], h.symm⟩
    · simp only [Except.error.injEq] at h
      exact Or.inr ⟨by rw [h2], h.symm⟩
  | otherError => rw [directHttpStep_otherError_eq] at h; simp at h

theorem fetchRemote_error_char (cfg : FetchConfig) (st : FetchState) (url path : String)
    (sel : SelResult) (http : HttpResult) (e : FatalExit)
    (h : (fetchRemote cfg st url path sel http).1 = .error e) :
    (http = .httpError 403 ∧ e = .blocked) ∨ (http = .httpError 429 ∧ e = .rateLimited) := by
  cases hc : cfg.useSelenium && containsFbref url with
  | false =>
    rw [fetchRemote_sel_off _ _ _ _ _ _ hc] at h
    exact directHttpStep_error_char _ _ _ _ _ h
  | true =>
    cases sel with
    | err =>
      rw [fetchRemote_sel_err _ _ _ _ _ hc] at h
      exact directHttpStep_error_char _ _ _ _ _ h
    | ok html =>
      by_cases hh : html = ""
      · subst hh
        rw [fetchRemote_sel_empty _ _ _ _ _ hc] at h
        exact directHttpStep_error_char _ _ _ _ _ h
      · rw [fetchRemote_sel_ok _ _ _ _ _ _ hc hh] at h
        simp at h

theorem safe_request_error_char (cfg : FetchConfig) (st : FetchState) (url path : String)
    (force : Bool) (sel : SelResult) (http : HttpResult) (e : FatalExit)
    (h : (safe_request cfg st url path force sel http).1 = .error e) :
    (http = .httpError 403 ∧ e = .blocked) ∨ (http = .httpError 429 ∧ e = .rateLimited) := by
  cases hcl : cacheLookup path st.cache with
  | some body =>
    cases force with
    | false =>
      rw [safe_request_hit hcl] at h
      simp at h
    | true =>
      rw [safe_request_force] at h
      exact fetchRemote_error_char _ _ _ _ _ _ _ h
  | none =>
    rw [safe_request_miss hcl] at h
    exact fetchRemote_error_char _ _ _ _ _ _ _ h

theorem directHttpStep_ok_cache (url path : String) (http : HttpResult) (st0 : FetchState)
    (b : String) (st' : FetchState)
    (h : directHttpStep url path http st0 = (.ok (some b), st')) :
    cacheLookup path st'.cache = some b := by
  cases http with
  | ok text =>
    rw [directHttpStep_ok_eq] at h
    simp only [Prod.mk.injEq, Except.ok.injEq, Option.some.injEq] at h
    obtain ⟨rfl, rfl⟩ := h
    exact cacheLookup_cons_self _ _ _
  | httpError s =>
    rw [directHttpStep_httpError_eq] at h
    split_ifs at h <;> simp at h
  | otherError =>
    rw [directHttpStep_otherError_eq] at h
    simp at h

theorem fetchRemote_ok_cache (cfg : FetchConfig) (st : FetchState) (url path : String)
    (sel : SelResult) (http : HttpResult) (b : String) (st' : FetchState)
    (h : fetchRemote cfg st url path sel http = (.ok (some b), st')) :
    cacheLookup path st'.cache = some b := by
  cases hc : cfg.useSelenium && containsFbref url with
  | false =>
    rw [fetchRemote_sel_off _ _ _ _ _ _ hc] at h
    exact directHttpStep_ok_cache _ _ _ _ _ _ h
  | true =>
    cases sel with
    | err =>
      rw [fetchRemote_sel_err _ _ _ _ _ hc] at h
      exact directHttpStep_ok_cache _ _ _ _ _ _ h
    | ok html =>
      by_cases hh : html = ""
      · subst hh
        rw [fetchRemote_sel_empty _ _ _ _ _ hc] at h
        exact directHttpStep_ok_cache _ _ _ _ _ _ h
      · rw [fetchRemote_sel_ok _ _ _ _ _ _ hc hh] at h
        simp only [Prod.mk.injEq, Except.ok.injEq, Option.some.injEq] at h
        obtain ⟨rfl, rfl⟩ := h
        exact cacheLookup_cons_self _ _ _

end FootballData

namespace FootballData

theorem safe_request_direct (cfg : FetchConfig) (st : FetchState) (url path : String)
    (force : Bool) (sel : SelResult) (http : HttpResult)
    (hmiss : cacheLookup path st.cache = none ∨ force = true)
    (hsel : (cfg.useSelenium && containsFbref url) = false ∨ sel = .err ∨ sel = .ok "") :
    ∃ st0, safe_request cfg st url path force sel http = directHttpStep url path http st0 := by
  have hfr : safe_request cfg st url path force sel http =
      fetchRemote cfg st url path sel http := by
    rcases hmiss with h | hf
    · exact safe_request_miss h
    · subst hf
      exact safe_request_force
  rw [hfr]
  rcases hsel with hc | hse | hse
  · exact ⟨_, fetchRemote_sel_off _ _ _ _ _ _ hc⟩
  · subst hse
    cases hc2 : cfg.useSelenium && containsFbref url with
    | false => exact ⟨_, fetchRemote_sel_off _ _ _ _ _ _ hc2⟩
    | true => exact ⟨_, fetchRemote_sel_err _ _ _ _ _ hc2⟩
  · subst hse
    cases hc2 : cfg.useSelenium && containsFbref url with
    | false => exact ⟨_, fetchRemote_sel_off _ _ _ _ _ _ hc2⟩
    | true => exact ⟨_, fetchRemote_sel_empty _ _ _ _ _ hc2⟩

/-- Claim C3: if force-refresh is false and the cache holds the key,
`safe_request` returns the stored body with no network fetch, no pacing
sleep and no cache write (the state is returned untouched); consequently a
second call with the same key after a successful first call returns the
identical body and changes nothing, and when the first call was a direct
HTTP fetch the two calls together perform exactly one network fetch. -/
theorem C3_cache_idempotence :
    (∀ (cfg : FetchConfig) (st : FetchState) (url path body : String)
       (sel : SelResult) (http : HttpResult),
       cacheLookup path st.cache = some body →
       safe_request cfg st url path false sel http = (.ok (some body), st)) ∧
    (∀ (cfg : FetchConfig) (st st1 : FetchState) (url path b : String)
       (sel sel' : SelResult) (http http' : HttpResult),
       cacheLookup path st.cache = none →
       safe_request cfg st url path false sel http = (.ok (some b), st1) →
       safe_request cfg st1 url path false sel' http' = (.ok (some b), st1)) ∧
    (∀ (cfg : FetchConfig) (st : FetchState) (url path b : String) (sel : SelResult),
       cacheLookup path st.cache = none →
       (cfg.useSelenium && containsFbref url) = false →
       safe_request cfg st url path false sel (.ok b) =
         (.ok (some b),
          ⟨(path, b) :: st.cache,
           st.events ++ [.sleep, .httpFetch url, .cacheStore path]⟩) ∧
       netFetchCount (st.events ++ [.sleep, .httpFetch url, .cacheStore path]) =
         netFetchCount st.events + 1) := by
  refine ⟨?_, ?_, ?_⟩
  · intro cfg st url path body sel http h
    exact safe_request_hit h
  · intro cfg st st1 url path b sel sel' http http' hnone h
    rw [safe_request_miss hnone] at h
    have hcache := fetchRemote_ok_cache _ _ _ _ _ _ _ _ h
    exact safe_request_hit hcache
  · intro cfg st url path b sel hnone hsel
    constructor
    · rw [safe_request_miss hnone, fetchRemote_sel_off _ _ _ _ _ _ hsel,
        directHttpStep_ok_eq]
      simp [logEvent]
    · simp [netFetchCount, List.countP_append, List.countP_cons, isNetFetch]

theorem C3_cache_idempotence_witness :
    safe_request ⟨false⟩ ⟨[("p", "b")], []⟩ "u" "p" false .err (.ok "x") =
      (.ok (some "b"), ⟨[("p", "b")], []⟩) ∧
    safe_request ⟨false⟩ ⟨[], []⟩ "u" "p" false .err (.ok "x") =
      (.ok (some "x"), ⟨[("p", "x")], [.sleep, .httpFetch "u", .cacheStore "p"]⟩) ∧
    safe_request ⟨false⟩ ⟨[("p", "x")], [.sleep, .httpFetch "u", .cacheStore "p"]⟩
        "u" "p" false .err .otherError =
      (.ok (some "x"), ⟨[("p", "x")], [.sleep, .httpFetch "u", .cacheStore "p"]⟩) := by
  have h1 := C3_cache_idempotence.1 ⟨false⟩ ⟨[("p", "b")], []⟩ "u" "p" "b" .err (.ok "x") rfl
  have h3 := (C3_cache_idempotence.2.2 ⟨false⟩ ⟨[], []⟩ "u" "p" "x" .err rfl rfl).1
  have h2 := C3_cache_idempotence.2.1 ⟨false⟩ ⟨[], []⟩ _ "u" "p" "x" .err .err
    (.ok "x") .otherError rfl h3
  exact ⟨h1, h3, h2⟩

/-- Claim C4: `safe_request` aborts the run with a fatal signal exactly when
the direct-HTTP request fails with status 403 (signalled `blocked`) or 429
(signalled `rateLimited`); the two signals are distinguishable; once the
direct-HTTP strategy is reached, any other failure of it (other error
status, timeout/connection failure) returns `none` so the caller can skip
the item. -/
theorem C4_fatal_classification (cfg : FetchConfig) (st : FetchState) (url path : String)
    (force : Bool) (sel : SelResult) (http : HttpResult) :
    (∀ e : FatalExit, (safe_request cfg st url path force sel http).1 = .error e →
       (http = .httpError 403 ∧ e = .blocked) ∨ (http = .httpError 429 ∧ e = .rateLimited)) ∧
    FatalExit.blocked ≠ FatalExit.rateLimited ∧
    ((cacheLookup path st.cache = none ∨ force = true) →
     ((cfg.useSelenium && containsFbref url) = false ∨ sel = .err ∨ sel = .ok "") →
     (http = .httpError 403 → (safe_request cfg st url path force sel http).1 = .error .blocked) ∧
     (http = .httpError 429 → (safe_request cfg st url path force sel http).1 = .error .rateLimited) ∧
     (∀ s, http = .httpError s → s ≠ 403 → s ≠ 429 →
        (safe_request cfg st url path force sel http).1 = .ok none) ∧
     (http = .otherError → (safe_request cfg st url path force sel http).1 = .ok none)) := by
  refine ⟨fun e => safe_request_error_char cfg st url path force sel http e, by simp, ?_⟩
  intro hmiss hsel
  obtain ⟨st0, hst0⟩ := safe_request_direct cfg st url path force sel http hmiss hsel
  refine ⟨?_, ?_, ?_, ?_⟩
  · rintro rfl
    rw [hst0, directHttpStep_httpError_eq]
    simp
  · rintro rfl
    rw [hst0, directHttpStep_httpError_eq]
    simp
  · rintro s rfl h403 h429
    rw [hst0, directHttpStep_httpError_eq, if_neg h403, if_neg h429]
  · rintro rfl
    rw [hst0, directHttpStep_otherError_eq]

theorem C4_fatal_classification_witness :
    (safe_request ⟨true⟩ ⟨[], []⟩ "https://fbref.com/x" "p" false .err (.httpError 403)).1 =
      .error .blocked ∧
    (safe_request ⟨true⟩ ⟨[], []⟩ "https://fbref.com/x" "p" false .err (.httpError 429)).1 =
      .error .rateLimited ∧
    (safe_request ⟨true⟩ ⟨[], []⟩ "https://fbref.com/x" "p" false .err (.httpError 500)).1 =
      .ok none ∧
    (safe_request ⟨true⟩ ⟨[], []⟩ "https://fbref.com/x" "p" false .err .otherError).1 =
      .ok none := by
  refine ⟨?_, ?_, ?_, ?_⟩
  · exact (((C4_fatal_classification ⟨true⟩ ⟨[], []⟩ "https://fbref.com/x" "p" false .err
      (.httpError 403)).2.2 (Or.inl rfl) (Or.inr (Or.inl rfl))).1 rfl)
  · exact (((C4_fatal_classification ⟨true⟩ ⟨[], []⟩ "https://fbref.com/x" "p" false .err
      (.httpError 429)).2.2 (Or.inl rfl) (Or.inr (Or.inl rfl))).2.1 rfl)
  · exact (((C4_fatal_classification ⟨true⟩ ⟨[], []⟩ "https://fbref.com/x" "p" false .err
      (.httpError 500)).2.2 (Or.inl rfl) (Or.inr (Or.inl rfl))).2.2.1 500 rfl
      (by decide) (by decide))
  · exact (((C4_fatal_classification ⟨true⟩ ⟨[], []⟩ "https://fbref.com/x" "p" false .err
      .otherError).2.2 (Or.inl rfl) (Or.inr (Or.inl rfl))).2.2.2 rfl)

/-- Claim C5: whenever the driven-browser strategy is selected (it is
available and the URL is on the host that requires it) and it raises a
failure, `safe_request` continues into the direct-HTTP strategy: the whole
call is exactly the direct-HTTP step run after the pacing sleep and the
failed Selenium attempt, and in particular the direct-HTTP fetch attempt is
in the event log before any failure outcome is reported. -/
theorem C5_fallback (cfg : FetchConfig) (st : FetchState) (url path : String)
    (force : Bool) (http : HttpResult)
    (hmiss : cacheLookup path st.cache = none ∨ force = true)
    (hsel : cfg.useSelenium = true) (hurl : containsFbref url = true) :
    safe_request cfg st url path force .err http =
      directHttpStep url path http ⟨st.cache, st.events ++ [.sleep, .seleniumFetch url]⟩ ∧
    FetchEvent.httpFetch url ∈ (safe_request cfg st url path force .err http).2.events := by
  have hc : (cfg.useSelenium && containsFbref url) = true := by simp [hsel, hurl]
  have hfr : safe_request cfg st url path force .err http =
      fetchRemote cfg st url path .err http := by
    rcases hmiss with h | hf
    · exact safe_request_miss h
    · subst hf
      exact safe_request_force
  have heq : fetchRemote cfg st url path .err http =
      directHttpStep url path http ⟨st.cache, st.events ++ [.sleep, .seleniumFetch url]⟩ := by
    rw [fetchRemote_sel_err _ _ _ _ _ hc]
    congr 1
    simp [logEvent]
  refine ⟨hfr.trans heq, ?_⟩
  rw [hfr.trans heq]
  exact directHttpStep_mem_httpFetch _ _ _ _

theorem C5_fallback_witness :
    safe_request ⟨true⟩ ⟨[], []⟩ "https://fbref.com/a" "p" false .err .otherError =
      directHttpStep "https://fbref.com/a" "p" .otherError
        ⟨[], [.sleep, .seleniumFetch "https://fbref.com/a"]⟩ ∧
    FetchEvent.httpFetch "https://fbref.com/a" ∈
      (safe_request ⟨true⟩ ⟨[], []⟩ "https://fbref.com/a" "p" false .err .otherError).2.events :=
  C5_fallback ⟨true⟩ ⟨[], []⟩ "https://fbref.com/a" "p" false .otherError
    (Or.inl rfl) rfl rfl

end FootballData

namespace FootballData

/-! ## C8: date normalization -/

/-- Claim C8: `parse_transfer_date` normalizes "Jul 1, 2019" and
"01.07.2019" to "2019-07-01"; a string with neither comma nor dot whose
only recoverable date information is a bare 4-digit year token (such as
"2019" itself) is normalized to July 1 of that year; and when no date can
be recovered (no parseable format and no year token, as in "TBD") it
returns null. -/
theorem C8_date_normalization :
    parse_transfer_date "Jul 1, 2019" = some "2019-07-01" ∧
    parse_transfer_date "01.07.2019" = some "2019-07-01" ∧
    parse_transfer_date "2019" = some "2019-07-01" ∧
    (∀ s y, hasChar s ',' = false → hasChar s '.' = false →
       yearSearch s = some y → parse_transfer_date s = some (y ++ "-07-01")) ∧
    (∀ s, hasChar s ',' = false → hasChar s '.' = false →
       yearSearch s = none → parse_transfer_date s = none) ∧
    parse_transfer_date "TBD" = none := by
  refine ⟨rfl, rfl, rfl, ?_, ?_, rfl⟩
  · intro s y hc hd hy
    have hs : ¬ (s = "" ∨ s = "-") := by
      rintro (rfl | rfl)
      · rw [show yearSearch "" = none from rfl] at hy
        exact Option.noConfusion hy
      · rw [show yearSearch "-" = none from rfl] at hy
        exact Option.noConfusion hy
    unfold parse_transfer_date
    rw [if_neg hs]
    simp only [hc, hd, Bool.false_eq_true, if_false, hy]
  · intro s hc hd hy
    by_cases hs : s = "" ∨ s = "-"
    · unfold parse_transfer_date
      rw [if_pos hs]
    · unfold parse_transfer_date
      rw [if_neg hs]
      simp only [hc, hd, Bool.false_eq_true, if_false, hy]

theorem C8_date_normalization_witness :
    parse_transfer_date "mid-2019" = some ("2019" ++ "-07-01") ∧
    parse_transfer_date "late 1998 deal" = some ("1998" ++ "-07-01") ∧
    parse_transfer_date "unknown" = none :=
  ⟨C8_date_normalization.2.2.2.1 "mid-2019" "2019" rfl rfl rfl,
   C8_date_normalization.2.2.2.1 "late 1998 deal" "1998" rfl rfl rfl,
   C8_date_normalization.2.2.2.2.1 "unknown" rfl rfl rfl⟩

/-! ## C1: end-date resolution -/

theorem endDateFor_eq_amended (to_club : String) (rest : List TransferEvent) :
    endDateFor to_club rest = amendedEndDateFor to_club rest := by
  cases rest with
  | nil => rfl
  | cons next tail =>
    simp only [endDateFor, amendedEndDateFor]
    cases hf : (next :: tail).find? (fun nt => nt.from_club == some to_club) with
    | none => simp [truthy]
    | some nt =>
      cases hd : nt.date_parsed with
      | none => simp [truthy, hd]
      | some d =>
        by_cases hde : d = ""
        · subst hde
          simp [truthy, hd]
        · simp [truthy, hd, hde]

theorem stepEvent_new_record (t : TransferEvent) (rest : List TransferEvent)
    (career : List ClubTenure) (to_club start_date : String)
    (htc : t.to_club = some to_club) (hne : to_club ≠ "")
    (hsd : t.date_parsed = some start_date) (hsne : start_date ≠ "")
    (hfind : career.find? (fun r => r.club == to_club) = none) :
    stepEvent t rest career =
      .ok (career ++ [{ club := to_club, start_date := start_date,
                        end_date := endDateFor to_club rest,
                        seasons := seasonList t.season,
                        transfer_fee := t.transfer_fee.getD "Unknown" }]) := by
  simp only [stepEvent, htc, hsd]
  rw [if_neg (by rintro (h | h); exact hne h; exact hsne h)]
  simp only [hfind]

/-- Claim C1 (amended): the end date of a tenure opened by a non-last event
is the parsed date of the first subsequent event whose source club equals
the tenure's club when that date is non-null and non-empty; if there is no
such event, or its date is null or empty, the end date defaults to the
parsed date of the very next event in the sorted sequence when that is
non-null and non-empty, and otherwise remains the scanned value; the last
event opens with end date "present".  A tenure-opening event with no
existing record for its club appends exactly the record with this end date,
and the claim's concrete example evaluates as stated. -/
theorem C1_amended_end_dates :
    (∀ to_club rest, endDateFor to_club rest = amendedEndDateFor to_club rest) ∧
    (∀ (t : TransferEvent) (rest : List TransferEvent) (career : List ClubTenure)
       (to_club start_date : String),
       t.to_club = some to_club → to_club ≠ "" →
       t.date_parsed = some start_date → start_date ≠ "" →
       career.find? (fun r => r.club == to_club) = none →
       stepEvent t rest career =
         .ok (career ++ [{ club := to_club, start_date := start_date,
                           end_date := endDateFor to_club rest,
                           seasons := seasonList t.season,
                           transfer_fee := t.transfer_fee.getD "Unknown" }])) ∧
    build_career_timeline
        [⟨none, some "2019-07-01", none, some "A", none⟩,
         ⟨none, some "2021-07-01", some "A", some "B", none⟩] =
      .ok [⟨"A", "2019-07-01", some "2021-07-01", [], "Unknown"⟩,
           ⟨"B", "2021-07-01", some "present", [], "Unknown"⟩] :=
  ⟨endDateFor_eq_amended, stepEvent_new_record, rfl⟩

theorem C1_amended_end_dates_witness :
    endDateFor "A" [⟨none, some "2021-07-01", some "A", some "B", none⟩] =
      amendedEndDateFor "A" [⟨none, some "2021-07-01", some "A", some "B", none⟩] ∧
    stepEvent ⟨none, some "2019-07-01", none, some "A", none⟩
        [⟨none, some "2021-07-01", some "A", some "B", none⟩] [] =
      .ok [⟨"A", "2019-07-01", some "2021-07-01", [], "Unknown"⟩] :=
  ⟨C1_amended_end_dates.1 "A" _,
   C1_amended_end_dates.2.1 ⟨none, some "2019-07-01", none, some "A", none⟩
     [⟨none, some "2021-07-01", some "A", some "B", none⟩] [] "A" "2019-07-01"
     rfl (by decide) rfl (by decide) rfl⟩

/-- Claim C1 counterexample: in the sorted sequence below, the tenure for
club "A" is opened by the first event (not the last one), and the first
subsequent event whose source club is "A" is the third event, whose parsed
date is null; the claim then demands that null date as the end date, but
the code falls back to the date of the very next event and outputs
"1900-01-01" for the tenure's end. -/
theorem C1_counterexample :
    ((sortTransfers
        [⟨none, some "1900-01-01", none, some "A", none⟩,
         ⟨none, some "1900-01-01", some "Z", some "Y", none⟩,
         ⟨none, none, some "A", some "X", none⟩]).drop 1).find?
        (fun nt => nt.from_club == some "A") =
      some ⟨none, none, some "A", some "X", none⟩ ∧
    (⟨none, none, some "A", some "X", none⟩ : TransferEvent).date_parsed = none ∧
    build_career_timeline
        [⟨none, some "1900-01-01", none, some "A", none⟩,
         ⟨none, some "1900-01-01", some "Z", some "Y", none⟩,
         ⟨none, none, some "A", some "X", none⟩] =
      .ok [⟨"A", "1900-01-01", some "1900-01-01", [], "Unknown"⟩,
           ⟨"Y", "1900-01-01", none, [], "Unknown"⟩] ∧
    some "1900-01-01" ≠ (none : Option String) :=
  ⟨rfl, rfl, rfl, by simp⟩

/-! ## C10: the merge touches only end date and seasons -/

theorem updateFirstClub_map {α : Type} (club : String) (f : ClubTenure → ClubTenure)
    (proj : ClubTenure → α) (hf : ∀ r, proj (f r) = proj r) :
    ∀ l : List ClubTenure, (updateFirstClub club f l).map proj = l.map proj := by
  intro l
  induction l with
  | nil => rfl
  | cons r rs ih =>
    simp only [updateFirstClub]
    split
    · simp [hf]
    · simp [ih]

theorem updateFirstClub_length (club : String) (f : ClubTenure → ClubTenure) :
    ∀ l : List ClubTenure, (updateFirstClub club f l).length = l.length := by
  intro l
  induction l with
  | nil => rfl
  | cons r rs ih =>
    simp only [updateFirstClub]
    split
    · simp
    · simp [ih]

/-- Claim C10: when the processed event's destination club already has a
record, the step changes no record's club, start date or transfer fee and
adds no record: the projection to (club, start date, fee) and the length of
the career list are unchanged, whatever the merge guard decides. -/
theorem C10_merge_frame (t : TransferEvent) (rest : List TransferEvent)
    (career career' : List ClubTenure) (to_club : String)
    (htc : t.to_club = some to_club)
    (hex : ∃ r ∈ career, r.club = to_club)
    (hok : stepEvent t rest career = .ok career') :
    career'.map (fun r => (r.club, r.start_date, r.transfer_fee)) =
      career.map (fun r => (r.club, r.start_date, r.transfer_fee)) ∧
    career'.length = career.length := by
  cases hdp : t.date_parsed with
  | none =>
    simp only [stepEvent, htc, hdp, Except.ok.injEq] at hok
    subst hok
    exact ⟨rfl, rfl⟩
  | some start_date =>
    simp only [stepEvent, htc, hdp] at hok
    by_cases h0 : to_club = "" ∨ start_date = ""
    · rw [if_pos h0] at hok
      simp only [Except.ok.injEq] at hok
      subst hok
      exact ⟨rfl, rfl⟩
    · rw [if_neg h0] at hok
      cases hfind : career.find? (fun r => r.club == to_club) with
      | none =>
        obtain ⟨r, hr, hrc⟩ := hex
        have := List.find?_eq_none.mp hfind r hr
        simp [hrc] at this
      | some existing =>
        simp only [hfind] at hok
        cases hmc : mergeCondition (endDateFor to_club rest) existing.end_date with
        | error msg => simp only [hmc] at hok; exact absurd hok (by simp)
        | ok b =>
          simp only [hmc] at hok
          cases b with
          | false =>
            simp only [Except.ok.injEq] at hok
            subst hok
            exact ⟨rfl, rfl⟩
          | true =>
            simp only [Except.ok.injEq] at hok
            subst hok
            exact ⟨updateFirstClub_map to_club
                (fun r => { r with end_date := endDateFor to_club rest,
                                   seasons := r.seasons ++ seasonList t.season })
                (fun r => (r.club, r.start_date, r.transfer_fee)) (fun r => rfl) career,
              updateFirstClub_length _ _ career⟩

theorem C10_merge_frame_witness :
    ([⟨"A", "2018-07-01", some "present", ["18/19", "20/21"], "Unknown"⟩] :
        List ClubTenure).map (fun r => (r.club, r.start_date, r.transfer_fee)) =
      ([⟨"A", "2018-07-01", some "2019-07-01", ["18/19"], "Unknown"⟩] :
        List ClubTenure).map (fun r => (r.club, r.start_date, r.transfer_fee)) ∧
    ([⟨"A", "2018-07-01", some "present", ["18/19", "20/21"], "Unknown"⟩] :
        List ClubTenure).length =
      ([⟨"A", "2018-07-01", some "2019-07-01", ["18/19"], "Unknown"⟩] :
        List ClubTenure).length :=
  C10_merge_frame ⟨some "20/21", some "2020-07-01", some "B", some "A", none⟩ []
    [⟨"A", "2018-07-01", some "2019-07-01", ["18/19"], "Unknown"⟩]
    [⟨"A", "2018-07-01", some "present", ["18/19", "20/21"], "Unknown"⟩] "A" rfl
    ⟨⟨"A", "2018-07-01", some "2019-07-01", ["18/19"], "Unknown"⟩, by simp, rfl⟩ rfl

end FootballData

namespace FootballData

/-! ## C7: the reconstruction is not exception-free -/

/-- Claim C7, evaluated at the failing input: `parse_transfer_date` does map
the unparseable "TBD" to null, but `build_career_timeline` does not complete
without raising on every event list.  On the list below the second event
merges into club "A"'s existing record with a null end date (the only later
event carries no date, so neither the departure scan nor the next-event
fallback yields one), and the merge guard then evaluates
`end_date > existing['end_date']` with `end_date = None`, which raises
`TypeError` in Python. -/
theorem C7_crash_eval :
    parse_transfer_date "TBD" = none ∧
    build_career_timeline
        [⟨none, some "1900-01-01", none, some "A", none⟩,
         ⟨none, some "1900-01-01", none, some "A", none⟩,
         ⟨none, none, none, some "B", none⟩] =
      .error "TypeError: '>' not supported between instances of 'NoneType' and 'str'" :=
  ⟨rfl, rfl⟩

/-! ## C2: loan-return merge -/

theorem stepEvent_map_club_or_append (t : TransferEvent) (rest : List TransferEvent)
    (career career' : List ClubTenure)
    (hok : stepEvent t rest career = .ok career') :
    career'.map (fun r => r.club) = career.map (fun r => r.club) ∨
    ∃ to_club, t.to_club = some to_club ∧
      career.find? (fun r => r.club == to_club) = none ∧
      career'.map (fun r => r.club) = career.map (fun r => r.club) ++ [to_club] := by
  cases htc : t.to_club with
  | none =>
    cases hdp : t.date_parsed with
    | none =>
      simp only [stepEvent, htc, hdp, Except.ok.injEq] at hok
      subst hok
      exact Or.inl rfl
    | some sd =>
      simp only [stepEvent, htc, hdp, Except.ok.injEq] at hok
      subst hok
      exact Or.inl rfl
  | some to_club =>
    cases hdp : t.date_parsed with
    | none =>
      simp only [stepEvent, htc, hdp, Except.ok.injEq] at hok
      subst hok
      exact Or.inl rfl
    | some sd =>
      simp only [stepEvent, htc, hdp] at hok
      by_cases h0 : to_club = "" ∨ sd = ""
      · rw [if_pos h0] at hok
        simp only [Except.ok.injEq] at hok
        subst hok
        exact Or.inl rfl
      · rw [if_neg h0] at hok
        cases hfind : career.find? (fun r => r.club == to_club) with
        | some existing =>
          simp only [hfind] at hok
          cases hmc : mergeCondition (endDateFor to_club rest) existing.end_date with
          | error msg =>
            simp only [hmc] at hok
            exact absurd hok (by simp)
          | ok b =>
            simp only [hmc] at hok
            cases b with
            | false =>
              simp only [Except.ok.injEq] at hok
              subst hok
              exact Or.inl rfl
            | true =>
              simp only [Except.ok.injEq] at hok
              subst hok
              exact Or.inl (updateFirstClub_map to_club
                (fun r => { r with end_date := endDateFor to_club rest,
                                   seasons := r.seasons ++ seasonList t.season })
                (fun r => r.club) (fun r => rfl) career)
        | none =>
          simp only [hfind, Except.ok.injEq] at hok
          subst hok
          exact Or.inr ⟨to_club, rfl, hfind, by simp⟩

theorem buildLoop_clubs_nodup :
    ∀ (l : List TransferEvent) (career career' : List ClubTenure),
      buildLoop l career = .ok career' →
      (career.map (fun r => r.club)).Nodup →
      (career'.map (fun r => r.club)).Nodup := by
  intro l
  induction l with
  | nil =>
    intro career career' h hn
    simp only [buildLoop, Except.ok.injEq] at h
    subst h
    exact hn
  | cons t rest ih =>
    intro career career' h hn
    simp only [buildLoop] at h
    cases hstep : stepEvent t rest career with
    | error msg =>
      rw [hstep] at h
      exact absurd h (by simp)
    | ok c1 =>
      rw [hstep] at h
      apply ih c1 career' h
      rcases stepEvent_map_club_or_append t rest career c1 hstep with heq | ⟨tc, _, hfind, heq⟩
      · rw [heq]
        exact hn
      · rw [heq]
        have htc : tc ∉ career.map (fun r => r.club) := by
          intro hmem
          obtain ⟨r, hr, hrc⟩ := List.mem_map.mp hmem
          have := List.find?_eq_none.mp hfind r hr
          simp [hrc] at this
        simp [List.nodup_append, hn, htc]

theorem stepEvent_merge (t : TransferEvent) (rest : List TransferEvent)
    (career : List ClubTenure) (to_club start_date : String) (existing : ClubTenure)
    (htc : t.to_club = some to_club) (hne : to_club ≠ "")
    (hsd : t.date_parsed = some start_date) (hsne : start_date ≠ "")
    (hfind : career.find? (fun r => r.club == to_club) = some existing) :
    (endDateFor to_club rest = some "present" →
      stepEvent t rest career = .ok (updateFirstClub to_club
        (fun r => { r with end_date := endDateFor to_club rest,
                           seasons := r.seasons ++ seasonList t.season }) career)) ∧
    (∀ n c, endDateFor to_club rest = some n → existing.end_date = some c →
      n ≠ "present" → c ≠ "present" →
      stepEvent t rest career =
        .ok (if pyStrLt c n then
               updateFirstClub to_club
                 (fun r => { r with end_date := some n,
                                    seasons := r.seasons ++ seasonList t.season }) career
             else career)) := by
  have hstep : stepEvent t rest career =
      match mergeCondition (endDateFor to_club rest) existing.end_date with
      | .error msg => .error msg
      | .ok true =>
        .ok (updateFirstClub to_club
          (fun r => { r with end_date := endDateFor to_club rest,
                             seasons := r.seasons ++ seasonList t.season }) career)
      | .ok false => .ok career := by
    simp only [stepEvent, htc, hsd]
    rw [if_neg (by rintro (h | h); exact hne h; exact hsne h)]
    simp only [hfind]
  constructor
  · intro hp
    rw [hstep]
    rw [show mergeCondition (endDateFor to_club rest) existing.end_date = .ok true from by
      rw [hp]; simp [mergeCondition]]
  · intro n c hn hc hnp hcp
    rw [hstep]
    have hmc : mergeCondition (endDateFor to_club rest) existing.end_date =
        .ok (pyStrLt c n) := by
      rw [hn, hc]
      simp [mergeCondition, hnp, hcp]
    rw [hmc]
    cases hpy : pyStrLt c n with
    | false => simp [hpy]
    | true => simp [hpy, hn]

/-- Claim C2: when an event's destination club already has a tenure record,
`build_career_timeline` creates no second record for that club (the clubs of
the records in any successful output are pairwise distinct, and the merge
step preserves the club list); the merge extends the existing record's end
date, appending the event's season label, exactly when the new end date is
"present" or strictly later (Python string `>`) than the current one, and
otherwise leaves the career unchanged; the claim's loan-return example
evaluates as stated, with one "A" record ending "present" carrying both
season labels. -/
theorem C2_loan_return_merge :
    (∀ (events : List TransferEvent) (career : List ClubTenure),
       build_career_timeline events = .ok career →
       (career.map (fun r => r.club)).Nodup) ∧
    (∀ (t : TransferEvent) (rest : List TransferEvent) (career : List ClubTenure)
       (to_club start_date : String) (existing : ClubTenure),
       t.to_club = some to_club → to_club ≠ "" →
       t.date_parsed = some start_date → start_date ≠ "" →
       career.find? (fun r => r.club == to_club) = some existing →
       (endDateFor to_club rest = some "present" →
         stepEvent t rest career = .ok (updateFirstClub to_club
           (fun r => { r with end_date := endDateFor to_club rest,
                              seasons := r.seasons ++ seasonList t.season }) career)) ∧
       (∀ n c, endDateFor to_club rest = some n → existing.end_date = some c →
         n ≠ "present" → c ≠ "present" →
         stepEvent t rest career =
           .ok (if pyStrLt c n then
                  updateFirstClub to_club
                    (fun r => { r with end_date := some n,
                                       seasons := r.seasons ++ seasonList t.season }) career
                else career))) ∧
    build_career_timeline
        [⟨some "18/19", some "2018-07-01", none, some "A", none⟩,
         ⟨some "19/20", some "2019-07-01", none, some "B", none⟩,
         ⟨some "20/21", some "2020-07-01", some "B", some "A", none⟩] =
      .ok [⟨"A", "2018-07-01", some "present", ["18/19", "20/21"], "Unknown"⟩,
           ⟨"B", "2019-07-01", some "2020-07-01", ["19/20"], "Unknown"⟩] := by
  refine ⟨?_, stepEvent_merge, rfl⟩
  intro events career h
  unfold build_career_timeline at h
  by_cases he : events.isEmpty
  · rw [if_pos he] at h
    simp only [Except.ok.injEq] at h
    subst h
    simp
  · rw [if_neg he] at h
    exact buildLoop_clubs_nodup _ _ _ h (by simp)

theorem C2_loan_return_merge_witness :
    (([⟨"A", "2018-07-01", some "present", ["18/19", "20/21"], "Unknown"⟩,
       ⟨"B", "2019-07-01", some "2020-07-01", ["19/20"], "Unknown"⟩] :
        List ClubTenure).map (fun r => r.club)).Nodup ∧
    stepEvent ⟨some "20/21", some "2020-07-01", some "B", some "A", none⟩ []
        [⟨"A", "2018-07-01", some "2019-07-01", ["18/19"], "Unknown"⟩] =
      .ok (updateFirstClub "A"
        (fun r => { r with end_date := endDateFor "A" [],
                           seasons := r.seasons ++ seasonList (some "20/21") })
        [⟨"A", "2018-07-01", some "2019-07-01", ["18/19"], "Unknown"⟩]) := by
  refine ⟨?_, ?_⟩
  · exact C2_loan_return_merge.1
      [⟨some "18/19", some "2018-07-01", none, some "A", none⟩,
       ⟨some "19/20", some "2019-07-01", none, some "B", none⟩,
       ⟨some "20/21", some "2020-07-01", some "B", some "A", none⟩]
      [⟨"A", "2018-07-01", some "present", ["18/19", "20/21"], "Unknown"⟩,
       ⟨"B", "2019-07-01", some "2020-07-01", ["19/20"], "Unknown"⟩] rfl
  · exact (C2_loan_return_merge.2.1
      ⟨some "20/21", some "2020-07-01", some "B", some "A", none⟩ []
      [⟨"A", "2018-07-01", some "2019-07-01", ["18/19"], "Unknown"⟩]
      "A" "2020-07-01" ⟨"A", "2018-07-01", some "2019-07-01", ["18/19"], "Unknown"⟩
      rfl (by decide) rfl (by decide) rfl).1 rfl

end FootballData

namespace FootballData

/-! ## C6: record invariants under all-ISO-dated inputs -/

theorem isISODate_ne_present {d : String} (h : isISODate d = true) : d ≠ "present" := by
  rintro rfl
  exact absurd h (by decide)

theorem isISODate_ne_empty {d : String} (h : isISODate d = true) : d ≠ "" := by
  rintro rfl
  exact absurd h (by decide)

theorem ISOdatedB_dest {e : TransferEvent} (h : ISOdatedB e = true) :
    ∃ d, e.date_parsed = some d ∧ isISODate d = true := by
  unfold ISOdatedB at h
  cases hdp : e.date_parsed with
  | none =>
    rw [hdp] at h
    simp at h
  | some d =>
    rw [hdp] at h
    exact ⟨d, rfl, h⟩

theorem sortKey_of_iso {e : TransferEvent} {d : String}
    (hdp : e.date_parsed = some d) (hiso : isISODate d = true) : sortKey e = d := by
  simp [sortKey, hdp, isISODate_ne_empty hiso]

theorem tenureOKb_start {r : ClubTenure} (h : tenureOKb r = true) :
    isISODate r.start_date = true := by
  simp only [tenureOKb, Bool.and_eq_true] at h
  exact h.1

theorem tenureOKb_present {club start fee : String} {seasons : List String}
    (hiso : isISODate start = true) :
    tenureOKb ⟨club, start, some "present", seasons, fee⟩ = true := by
  simp [tenureOKb, hiso]

theorem tenureOKb_date {club start fee d : String} {seasons : List String}
    (hiso : isISODate start = true) (hisod : isISODate d = true)
    (hle : pyStrLe start d = true) :
    tenureOKb ⟨club, start, some d, seasons, fee⟩ = true := by
  simp [tenureOKb, hiso, hisod, hle]

theorem tenureOKb_dest {r : ClubTenure} (h : tenureOKb r = true)
    (hnp : r.end_date ≠ some "present") :
    ∃ c, r.end_date = some c ∧ c ≠ "present" ∧ isISODate c = true ∧
      pyStrLe r.start_date c = true := by
  simp only [tenureOKb, Bool.and_eq_true] at h
  obtain ⟨_, h2⟩ := h
  cases hend : r.end_date with
  | none =>
    rw [hend] at h2
    simp at h2
  | some c =>
    rw [hend] at h2
    have hc : c ≠ "present" := by
      rintro rfl
      exact hnp hend
    simp only [Bool.or_eq_true, beq_iff_eq, Bool.and_eq_true] at h2
    rcases h2 with h2 | h2
    · exact absurd h2 hc
    · exact ⟨c, rfl, hc, h2.1, h2.2⟩

theorem endDateFor_iso (to_club : String) (next : TransferEvent)
    (tail : List TransferEvent)
    (hall : ∀ e ∈ next :: tail, ISOdatedB e = true) :
    ∃ u ∈ next :: tail, ∃ d, u.date_parsed = some d ∧ isISODate d = true ∧
      endDateFor to_club (next :: tail) = some d := by
  cases hf : (next :: tail).find? (fun nt => nt.from_club == some to_club) with
  | some nt =>
    have hmem := List.mem_of_find?_eq_some hf
    obtain ⟨d, hdp, hiso⟩ := ISOdatedB_dest (hall nt hmem)
    refine ⟨nt, hmem, d, hdp, hiso, ?_⟩
    simp [endDateFor, hf, hdp, truthy, isISODate_ne_empty hiso]
  | none =>
    obtain ⟨d, hdp, hiso⟩ := ISOdatedB_dest (hall next (by simp))
    refine ⟨next, by simp, d, hdp, hiso, ?_⟩
    simp [endDateFor, hf, hdp, truthy, isISODate_ne_empty hiso]

theorem updateFirstClub_find? (club : String) (f : ClubTenure → ClubTenure) :
    ∀ (career : List ClubTenure) (existing : ClubTenure),
      career.find? (fun r => r.club == club) = some existing →
      ∃ l1 l2, career = l1 ++ existing :: l2 ∧
        (∀ r ∈ l1, r.club ≠ club) ∧
        updateFirstClub club f career = l1 ++ f existing :: l2 := by
  intro career
  induction career with
  | nil =>
    intro existing h
    simp at h
  | cons r rs ih =>
    intro existing h
    by_cases hc : r.club = club
    · have hr : r = existing := by
        rw [List.find?_cons_of_pos _ (by simp [hc])] at h
        exact (Option.some.injEq _ _ ▸ h :)
      subst hr
      exact ⟨[], rs, by simp, by simp, by simp [updateFirstClub, hc]⟩
    · rw [List.find?_cons_of_neg _ (by simp [hc])] at h
      obtain ⟨l1, l2, he, hl1, hu⟩ := ih existing h
      refine ⟨r :: l1, l2, by simp [he], ?_, by simp [updateFirstClub, hc, hu]⟩
      intro x hx
      rcases List.mem_cons.mp hx with rfl | hx
      · exact hc
      · exact hl1 x hx

theorem presentCount_eq_zero {career : List ClubTenure}
    (h : ∀ r ∈ career, r.end_date ≠ some "present") : presentCount career = 0 := by
  simp only [presentCount, List.countP_eq_zero]
  intro r hr
  simp [isPresentRec, h r hr]

theorem presentCount_append_le_one (career : List ClubTenure) (x : ClubTenure)
    (h : ∀ r ∈ career, r.end_date ≠ some "present") :
    presentCount (career ++ [x]) ≤ 1 := by
  unfold presentCount
  rw [List.countP_append, List.countP_eq_zero.mpr (fun r hr => by simp [isPresentRec, h r hr])]
  have : List.countP isPresentRec [x] ≤ 1 := by
    rw [List.countP_cons]
    split <;> simp [List.countP_nil]
  omega

theorem presentCount_le_one_of_middle (l1 l2 : List ClubTenure) (x : ClubTenure)
    (h1 : ∀ r ∈ l1, r.end_date ≠ some "present")
    (h2 : ∀ r ∈ l2, r.end_date ≠ some "present") :
    presentCount (l1 ++ x :: l2) ≤ 1 := by
  unfold presentCount
  rw [List.countP_append, List.countP_cons,
    List.countP_eq_zero.mpr (fun r hr => by simp [isPresentRec, h1 r hr]),
    List.countP_eq_zero.mpr (fun r hr => by simp [isPresentRec, h2 r hr])]
  split <;> omega

end FootballData

namespace FootballData

theorem stepEvent_inv (t : TransferEvent) (rest : List TransferEvent)
    (career : List ClubTenure)
    (hall : ∀ e ∈ t :: rest, ISOdatedB e = true)
    (hsorted : (t :: rest).Pairwise (fun a b => pyStrLe (sortKey a) (sortKey b) = true))
    (hcar : ∀ r ∈ career, tenureOKb r = true)
    (hnp : ∀ r ∈ career, r.end_date ≠ some "present") :
    ∃ career', stepEvent t rest career = .ok career' ∧
      (∀ r ∈ career', tenureOKb r = true) ∧
      (rest ≠ [] → ∀ r ∈ career', r.end_date ≠ some "present") ∧
      presentCount career' ≤ 1 := by
  have hpc0 : presentCount career = 0 := presentCount_eq_zero hnp
  obtain ⟨dt, hdt, hisot⟩ := ISOdatedB_dest (hall t (by simp))
  have hdtne : dt ≠ "" := isISODate_ne_empty hisot
  cases htc : t.to_club with
  | none =>
    refine ⟨career, ?_, hcar, fun _ => hnp, by omega⟩
    simp only [stepEvent, htc, hdt]
  | some to_club =>
    by_cases h0 : to_club = ""
    · refine ⟨career, ?_, hcar, fun _ => hnp, by omega⟩
      simp only [stepEvent, htc, hdt]
      rw [if_pos (Or.inl h0)]
    · cases hfind : career.find? (fun r => r.club == to_club) with
      | none =>
        have hnew := stepEvent_new_record t rest career to_club dt htc h0 hdt hdtne hfind
        cases rest with
        | nil =>
          refine ⟨_, hnew, ?_, fun hne => absurd rfl hne,
            presentCount_append_le_one career _ hnp⟩
          intro r hr
          rcases List.mem_append.mp hr with hr | hr
          · exact hcar r hr
          · simp only [List.mem_singleton] at hr
            subst hr
            exact tenureOKb_present hisot
        | cons next tail =>
          obtain ⟨u, hu, du, hdu, hisodu, hend⟩ :=
            endDateFor_iso to_club next tail (fun e he => hall e (List.mem_cons_of_mem _ he))
          have hle : pyStrLe dt du = true := by
            have hp := (List.pairwise_cons.mp hsorted).1 u hu
            rwa [sortKey_of_iso hdt hisot, sortKey_of_iso hdu hisodu] at hp
          refine ⟨_, hnew, ?_, ?_, presentCount_append_le_one career _ hnp⟩
          · intro r hr
            rcases List.mem_append.mp hr with hr | hr
            · exact hcar r hr
            · simp only [List.mem_singleton] at hr
              subst hr
              have hrec : (⟨to_club, dt, endDateFor to_club (next :: tail),
                  seasonList t.season, t.transfer_fee.getD "Unknown"⟩ : ClubTenure) =
                  ⟨to_club, dt, some du, seasonList t.season,
                    t.transfer_fee.getD "Unknown"⟩ := by
                rw [hend]
              rw [hrec]
              exact tenureOKb_date hisot hisodu hle
          · intro _ r hr
            rcases List.mem_append.mp hr with hr | hr
            · exact hnp r hr
            · simp only [List.mem_singleton] at hr
              subst hr
              show endDateFor to_club (next :: tail) ≠ some "present"
              rw [hend]
              simp [isISODate_ne_present hisodu]
      | some existing =>
        have hex_mem := List.mem_of_find?_eq_some hfind
        have hexOK := hcar existing hex_mem
        have hexNP := hnp existing hex_mem
        have hmerge := stepEvent_merge t rest career to_club dt existing htc h0 hdt hdtne hfind
        cases rest with
        | nil =>
          have heq := hmerge.1 rfl
          obtain ⟨l1, l2, hdecomp, _, hupd⟩ := updateFirstClub_find? to_club
            (fun r => { r with end_date := endDateFor to_club ([] : List TransferEvent),
                               seasons := r.seasons ++ seasonList t.season })
            career existing hfind
          rw [hupd] at heq
          have hsub : ∀ r, r ∈ l1 ∨ r ∈ l2 → r ∈ career := by
            intro r hr
            rw [hdecomp]
            rcases hr with h | h <;> simp [h]
          refine ⟨_, heq, ?_, fun hne => absurd rfl hne,
            presentCount_le_one_of_middle l1 l2 _
              (fun r hr => hnp r (hsub r (Or.inl hr)))
              (fun r hr => hnp r (hsub r (Or.inr hr)))⟩
          intro r hr
          rcases List.mem_append.mp hr with hr | hr
          · exact hcar r (hsub r (Or.inl hr))
          · rcases List.mem_cons.mp hr with rfl | hr
            · exact tenureOKb_present (tenureOKb_start hexOK)
            · exact hcar r (hsub r (Or.inr hr))
        | cons next tail =>
          obtain ⟨u, hu, du, hdu, hisodu, hend⟩ :=
            endDateFor_iso to_club next tail (fun e he => hall e (List.mem_cons_of_mem _ he))
          obtain ⟨c, hc, hcne, hisoc, hlec⟩ := tenureOKb_dest hexOK hexNP
          have heq := hmerge.2 du c hend hc (isISODate_ne_present hisodu) hcne
          cases hgt : pyStrLt c du with
          | false =>
            rw [hgt] at heq
            simp only [Bool.false_eq_true, if_false] at heq
            exact ⟨career, heq, hcar, fun _ => hnp, by omega⟩
          | true =>
            rw [hgt] at heq
            simp only [if_true] at heq
            obtain ⟨l1, l2, hdecomp, _, hupd⟩ := updateFirstClub_find? to_club
              (fun r => { r with end_date := some du,
                                 seasons := r.seasons ++ seasonList t.season })
              career existing hfind
            rw [hupd] at heq
            have hsub : ∀ r, r ∈ l1 ∨ r ∈ l2 → r ∈ career := by
              intro r hr
              rw [hdecomp]
              rcases hr with h | h <;> simp [h]
            refine ⟨_, heq, ?_, ?_,
              presentCount_le_one_of_middle l1 l2 _
                (fun r hr => hnp r (hsub r (Or.inl hr)))
                (fun r hr => hnp r (hsub r (Or.inr hr)))⟩
            · intro r hr
              rcases List.mem_append.mp hr with hr | hr
              · exact hcar r (hsub r (Or.inl hr))
              · rcases List.mem_cons.mp hr with rfl | hr
                · exact tenureOKb_date (tenureOKb_start hexOK) hisodu
                    (pyStrLe_of_le_of_lt _ _ _ hlec hgt)
                · exact hcar r (hsub r (Or.inr hr))
            · intro _ r hr
              rcases List.mem_append.mp hr with hr | hr
              · exact hnp r (hsub r (Or.inl hr))
              · rcases List.mem_cons.mp hr with rfl | hr
                · show some du ≠ some "present"
                  simp [isISODate_ne_present hisodu]
                · exact hnp r (hsub r (Or.inr hr))

theorem buildLoop_inv :
    ∀ (l : List TransferEvent) (career : List ClubTenure),
      l.Pairwise (fun a b => pyStrLe (sortKey a) (sortKey b) = true) →
      (∀ e ∈ l, ISOdatedB e = true) →
      (∀ r ∈ career, tenureOKb r = true) →
      (∀ r ∈ career, r.end_date ≠ some "present") →
      ∃ career', buildLoop l career = .ok career' ∧
        (∀ r ∈ career', tenureOKb r = true) ∧ presentCount career' ≤ 1 := by
  intro l
  induction l with
  | nil =>
    intro career _ _ hcar hnp
    exact ⟨career, rfl, hcar, by rw [presentCount_eq_zero hnp]; omega⟩
  | cons t rest ih =>
    intro career hsorted hall hcar hnp
    obtain ⟨career1, hstep, hok1, hnp1, hpc1⟩ := stepEvent_inv t rest career hall hsorted hcar hnp
    cases rest with
    | nil =>
      refine ⟨career1, ?_, hok1, hpc1⟩
      simp only [buildLoop, hstep]
    | cons next tail =>
      obtain ⟨career', hloop, hok', hpc'⟩ := ih career1
        ((List.pairwise_cons.mp hsorted).2)
        (fun e he => hall e (List.mem_cons_of_mem _ he))
        hok1 (hnp1 (by simp))
      refine ⟨career', ?_, hok', hpc'⟩
      simp only [buildLoop, hstep]
      exact hloop

/-- Claim C6 (amended): for every input event list in which every event
carries a non-null ISO-shaped parsed date, `build_career_timeline` succeeds
and every returned record has an ISO start date, an end date that is either
an ISO date or the sentinel "present", start ≤ end in the string order the
code uses (with "present" counting as greater than any date), and at most
one record in the output is open (end = "present"). -/
theorem C6_amended_invariants (events : List TransferEvent)
    (hall : ∀ e ∈ events, ISOdatedB e = true) :
    ∃ career, build_career_timeline events = .ok career ∧
      (∀ r ∈ career, tenureOKb r = true) ∧ presentCount career ≤ 1 := by
  by_cases he : events.isEmpty
  · refine ⟨[], ?_, by simp, by simp [presentCount]⟩
    unfold build_career_timeline
    rw [if_pos he]
  · obtain ⟨career, h1, h2, h3⟩ := buildLoop_inv (sortTransfers events) []
      (pairwise_sortTransfers events)
      (fun e hmem => hall e (mem_sortTransfers.mp hmem))
      (by simp) (by simp)
    refine ⟨career, ?_, h2, h3⟩
    unfold build_career_timeline
    rw [if_neg he]
    exact h1

theorem C6_amended_invariants_witness :
    ∃ career, build_career_timeline
        [⟨none, some "2019-07-01", none, some "A", none⟩,
         ⟨none, some "2021-07-01", some "A", some "B", none⟩] = .ok career ∧
      (∀ r ∈ career, tenureOKb r = true) ∧ presentCount career ≤ 1 :=
  C6_amended_invariants
    [⟨none, some "2019-07-01", none, some "A", none⟩,
     ⟨none, some "2021-07-01", some "A", some "B", none⟩] (by decide)

/-- Claim C6 counterexample: on the input below the second event has a null
parsed date, and the first tenure's departure scan and next-event fallback
both come up empty, so the function succeeds but returns a record whose end
date is null — neither an ISO calendar date nor the sentinel "present"
(and the record fails the invariant predicate). -/
theorem C6_counterexample :
    build_career_timeline
        [⟨none, some "1900-01-01", none, some "A", none⟩,
         ⟨none, none, none, some "B", none⟩] =
      .ok [⟨"A", "1900-01-01", none, [], "Unknown"⟩] ∧
    (⟨"A", "1900-01-01", none, [], "Unknown"⟩ : ClubTenure).end_date = none ∧
    tenureOKb ⟨"A", "1900-01-01", none, [], "Unknown"⟩ = false :=
  ⟨rfl, rfl, rfl⟩

end FootballData
